import Mathlib

/-!
# Shallow embedding of `src/static/js/settings.js`

The module under verification is Etherpad's client-side scoped settings
resolver.  It maintains a registry of settings, each carrying a per-scope
value map (`val`), resolves an effective value by scanning the scope list
`["local", "global", "get"]`, seeds values at load time from defaults,
URL query parameters and custom callbacks, and validates the registry.

JavaScript values that flow through the module are modelled by `JSVal`
(undefined, null, booleans and strings; the registry and its operations
use no other value shapes).  Stateful functions are modelled by explicit
state passing: a mutating call returns the post-state together with an
optional error (`none` means the call returned normally), mirroring the
fact that a JS exception does not roll back mutations already performed.

External collaborators (the jQuery widget toolkit, the cookie store, the
setting-level change callbacks and `console.log`) are side-effect-only
from the resolver's point of view: they never change the registry state,
so calls to them are modelled as no-ops on the state.  Bound widgets are
assumed to exist (per the external-interface contract).
-/

set_option autoImplicit false

namespace Settings

/-- The JavaScript values the settings module manipulates. -/
inductive JSVal where
  | undef
  | null
  | bool (b : Bool)
  | str (s : String)
  deriving Repr, DecidableEq

/-- JS truthiness for the values of `JSVal`: `undefined`, `null`, `false`
and the empty string are falsy, everything else is truthy. -/
def truthy : JSVal → Bool
  | .undef => false
  | .null => false
  | .bool b => b
  | .str s => !(s == "")

/-- JS `ToString`, as used when a value is concatenated into a string or
used as a property key. -/
def jsToString : JSVal → String
  | .undef => "undefined"
  | .null => "null"
  | .bool b => if b then "true" else "false"
  | .str s => s

/-- Whitespace characters recognised when trimming a string for numeric
conversion. -/
def isWs (c : Char) : Bool := c = ' ' ∨ c = '\t' ∨ c = '\n' ∨ c = '\r'

/-- JS `ToNumber` on a string, restricted to the shapes this module can
meet: the trimmed empty string converts to `0`, a trimmed run of decimal
digits converts to the corresponding natural number, and anything else is
`NaN` (`none`).  The result list of `trimChars` is the reversed trimmed
character list. -/
def trimChars (cs : List Char) : List Char :=
  (cs.dropWhile isWs).reverse.dropWhile isWs

/-- Numeric conversion on the trimmed (reversed) character list. -/
def toNumOfStr? (s : String) : Option Nat :=
  let t := trimChars s.data
  if t = [] then some 0
  else if t.all Char.isDigit then some (t.reverse.foldl (fun n c => n * 10 + (c.toNat - 48)) 0)
  else none

/-- `1` for `true`, `0` for `false`: JS `ToNumber` on booleans. -/
def boolNum (b : Bool) : Nat := if b then 1 else 0

/-- JS loose equality `==` on the values of `JSVal`: `undefined` and
`null` are loosely equal to each other and to nothing else, same-type
comparisons are plain equality, and a boolean compared with a string goes
through `ToNumber` on both sides. -/
def jsLooseEq : JSVal → JSVal → Bool
  | .undef, .undef => true
  | .undef, .null => true
  | .null, .undef => true
  | .null, .null => true
  | .bool a, .bool b => a == b
  | .str a, .str b => a == b
  | .bool b, .str s => toNumOfStr? s == some (boolNum b)
  | .str s, .bool b => toNumOfStr? s == some (boolNum b)
  | _, _ => false

/-- The `callback` field of a `custom` control: absent (or otherwise
falsy), present but not callable, or an actual function.  The custom
callbacks of the registry take `(setting, scope)` but are specified as
zero-argument computations seeding a scope, so the function case carries
a thunk. -/
inductive CbField where
  | missing
  | notFn (v : JSVal)
  | fn (f : Unit → JSVal)

/-- `!cb` on a callback field: absent or falsy. -/
def cbFalsy : CbField → Bool
  | .missing => true
  | .notFn v => !(truthy v)
  | .fn _ => false

/-- `typeof cb == "function"` on a callback field. -/
def cbIsFn : CbField → Bool
  | .fn _ => true
  | _ => false

/-- One entry of a setting's `controls` array.  Every field of the JS
object literal is a `JSVal` (absent fields read as `undefined`), except
the custom-control callback which is kept callable. -/
structure Control where
  scope : JSVal := .undef
  type : JSVal := .undef
  id : JSVal := .undef
  name : JSVal := .undef
  callback : CbField := .missing

/-- One entry of the `settings` array.  `val` models the per-scope value
map (a JS array used with string keys): a total function from key to
value, `JSVal.undef` standing for an absent entry, which is exactly how
the code observes it (`typeof val[scope] != "undefined"`, truthiness).
`controls` is `none` when the `controls` property is absent.  The
setting-level change `callback` is an external side effect (it never
touches the resolver state), so only the value map matters here. -/
structure Setting where
  name : JSVal := .undef
  defaultValue : JSVal := .undef
  controls : Option (List Control) := none
  val : String → JSVal := (fun _ => .undef)

/-- The module-level mutable state: the settings registry, the ignored
scope list and the loaded flag. -/
structure SettingsState where
  settings : List Setting
  ignoredScopes : List String := []
  loaded : Bool := false

/-- `var scopes = ["local", "global", "get"];` -/
def scopes : List String := ["local", "global", "get"]

/-- `var validTypes = ["control", "get", "custom"];` -/
def validTypes : List String := ["control", "get", "custom"]

/-- The ways a call into the module can fail: a `throw` of a message
string, or a TypeError raised by dereferencing `null`/calling a
non-function. -/
inductive JSErr where
  | thrown (msg : String)
  | typeError
  deriving Repr, DecidableEq

/-- `exports.getSetting`: linear scan of the registry, returning the
first setting whose `name` is loosely equal to the argument, or `null`
(`none`). -/
def getSetting (ss : List Setting) (name : JSVal) : Option Setting :=
  ss.find? (fun s => jsLooseEq s.name name)

/-- The loop body of `exports.getValue`: walk the remaining scope list;
for a scope that is not ignored, dereference `setting.val[scope]` (a
TypeError when the setting lookup produced `null`) and return it when it
is defined; return `null` when the list is exhausted. -/
def getValueScan (ign : List String) (os : Option Setting) : List String → Except JSErr JSVal
  | [] => .ok JSVal.null
  | sc :: rest =>
    if ign.contains sc then getValueScan ign os rest
    else
      match os with
      | none => .error JSErr.typeError
      | some s =>
        if s.val sc == JSVal.undef then getValueScan ign os rest
        else .ok (s.val sc)

/-- `exports.getValue(name)`. -/
def getValueExc (st : SettingsState) (name : JSVal) : Except JSErr JSVal :=
  getValueScan st.ignoredScopes (getSetting st.settings name) scopes

/-- Point update of a value map: `val[k] = v`. -/
def updateVal (val : String → JSVal) (k : String) (v : JSVal) : String → JSVal :=
  fun k' => if k' = k then v else val k'

/-- `setting.val[scope] = value` applied to the first setting of the
registry whose name matches (the object `exports.getSetting` aliases). -/
def setValFirst (name : JSVal) (scope : String) (value : JSVal) : List Setting → List Setting
  | [] => []
  | s :: rest =>
    if jsLooseEq s.name name then { s with val := updateVal s.val scope value } :: rest
    else s :: setValFirst name scope value rest

/-- `exports.setValue(name, scope, value)`.  The scope check runs before
anything else (`throw "Unknown scope"`); looking up an unregistered name
then dereferences `null` (TypeError) before any mutation.  On the happy
path the value is recorded; pushing it into bound widgets, invoking the
setting's change callback and (when loaded) saving the cookie are calls
to external collaborators and leave the resolver state untouched. -/
def setValueRun (st : SettingsState) (name : JSVal) (scope : String) (value : JSVal) :
    SettingsState × Option JSErr :=
  if !(scopes.contains scope) then (st, some (JSErr.thrown "Unknown scope"))
  else
    match getSetting st.settings name with
    | none => (st, some JSErr.typeError)
    | some _ => ({ st with settings := setValFirst name scope value st.settings }, none)

/-- `exports.setIgnoreScope(scope, ignore)`: unknown scopes throw;
`push` adds a scope that is not yet ignored; `splice(indexOf, 1)` (that
is, `List.erase`) removes the first occurrence of an ignored scope;
anything else is a no-op. -/
def setIgnoreScopeRun (st : SettingsState) (scope : String) (ignore : Bool) :
    SettingsState × Option JSErr :=
  if !(scopes.contains scope) then
    (st, some (JSErr.thrown ("Scope " ++ scope ++ " does not exist.")))
  else if ignore && !(st.ignoredScopes.contains scope) then
    ({ st with ignoredScopes := st.ignoredScopes ++ [scope] }, none)
  else if !ignore && st.ignoredScopes.contains scope then
    ({ st with ignoredScopes := st.ignoredScopes.erase scope }, none)
  else (st, none)

/-- The inner loop of `exports.exportSettings` for one setting: the
scope/value pairs recorded into `out[name]`, in scope order, keeping a
pair when its value is truthy and the scope filter passes (`scope ==
scopes[j] || !scope`). -/
def exportEntry (scope : JSVal) (s : Setting) : List (String × JSVal) :=
  scopes.filterMap (fun sc =>
    if truthy (s.val sc) && (jsLooseEq scope (.str sc) || !(truthy scope)) then
      some (sc, s.val sc)
    else none)

/-- Assignment `out[k] = v` on a JS object modelled as an association
list: overwrite in place when the key exists (insertion order is kept),
append otherwise. -/
def setKey {α : Type} (l : List (String × α)) (k : String) (v : α) : List (String × α) :=
  if l.any (fun p => p.1 = k) then l.map (fun p => if p.1 = k then (k, v) else p)
  else l ++ [(k, v)]

/-- `exports.exportSettings(scope)`: one entry per setting name (a later
setting with a duplicate name overwrites the earlier entry, as the JS
object assignment does), holding the filtered scope/value pairs. -/
def exportSettings (st : SettingsState) (scope : JSVal) : List (String × List (String × JSVal)) :=
  st.settings.foldl (fun out s => setKey out (jsToString s.name) (exportEntry scope s)) []

/-! ## Validator (`checkSettingsArray`) -/

/-- `logSettingsError(errors, msg)`: push the message, tagged with the
`"settings error: "` marker, onto the collected error list (the
`console.log` call is an external side effect). -/
def logSettingsError (errors : List String) (msg : String) : List String :=
  errors ++ ["settings error: " ++ msg]

/-- `if(!type) ...`: the type-presence check of the control loop. -/
def ctlTypePresent (sn : JSVal) (j : Nat) (c : Control) (errs : List String) : List String :=
  if truthy c.type then errs
  else logSettingsError errs
    ("no type for control " ++ toString j ++ " in setting " ++ jsToString sn)

/-- `if(validTypes.indexOf(type) == -1) ...`: the type-validity check
(strict equality against the three recognised type strings). -/
def ctlTypeValid (sn : JSVal) (j : Nat) (c : Control) (errs : List String) : List String :=
  if c.type = .str "control" ∨ c.type = .str "get" ∨ c.type = .str "custom" then errs
  else logSettingsError errs
    ("invalid type " ++ jsToString c.type ++ " for setting " ++ toString j
      ++ " in setting " ++ jsToString sn)

/-- `if(!scope) ...`: the scope-presence check. -/
def ctlScopePresent (sn : JSVal) (j : Nat) (c : Control) (errs : List String) : List String :=
  if truthy c.scope then errs
  else logSettingsError errs
    ("no scope for control " ++ toString j ++ " in setting " ++ jsToString sn)

/-- `if(scopes.indexOf(scope) == -1) ...`: the scope-validity check.
Note that the message interpolates `type`, exactly as the source does. -/
def ctlScopeValid (sn : JSVal) (j : Nat) (c : Control) (errs : List String) : List String :=
  if c.scope = .str "local" ∨ c.scope = .str "global" ∨ c.scope = .str "get" then errs
  else logSettingsError errs
    ("invalid scope " ++ jsToString c.type ++ " for control " ++ toString j
      ++ " in setting " ++ jsToString sn)

/-- The kind-specific field checks: a `control` binding needs a truthy
`id`, a `get` binding a truthy `name`, a `custom` binding a callable
`callback`. -/
def ctlKindChecks (sn : JSVal) (j : Nat) (c : Control) (errs : List String) : List String :=
  if c.type = .str "control" then
    if truthy c.id then errs
    else logSettingsError errs
      ("ID of control for control " ++ toString j ++ " in setting " ++ jsToString sn
        ++ " not given")
  else if c.type = .str "get" then
    if truthy c.name then errs
    else logSettingsError errs
      ("Name of get-parameter for control " ++ toString j ++ " in setting " ++ jsToString sn
        ++ " not given")
  else if c.type = .str "custom" then
    if cbFalsy c.callback then
      logSettingsError errs
        ("Callback for control " ++ toString j ++ " in setting " ++ jsToString sn
          ++ " not given")
    else if cbIsFn c.callback then errs
    else
      logSettingsError errs
        ("Callback for control " ++ toString j ++ " in setting " ++ jsToString sn
          ++ " is not a function")
  else errs

/-- The per-control checks of `checkSettingsArray`, for control `j` of
the setting named `sn`: the five checks of the source's control loop, in
statement order, each appending its diagnostics to the collected
list. -/
def checkControl (sn : JSVal) (j : Nat) (c : Control) (errs : List String) : List String :=
  ctlKindChecks sn j c
    (ctlScopeValid sn j c (ctlScopePresent sn j c (ctlTypeValid sn j c
      (ctlTypePresent sn j c errs))))

/-- The per-setting checks of `checkSettingsArray` for setting `i`:
non-empty name (`!setting.name || setting.name.length == 0`, which for
the values of `JSVal` is exactly falsiness), presence of the `controls`
array (skipping the per-control checks when absent), then the
per-control checks in order. -/
def checkSetting (i : Nat) (s : Setting) (errs0 : List String) : List String :=
  let nameOkay := truthy s.name
  let e1 :=
    if nameOkay then errs0
    else logSettingsError errs0 ("name of setting " ++ toString i ++ " not given")
  match s.controls with
  | none =>
    let nm := if nameOkay then jsToString s.name else toString i
    logSettingsError e1 ("controls of setting " ++ nm ++ " not given")
  | some cs =>
    cs.enum.foldl (fun errs jc => checkControl s.name jc.1 jc.2 errs) e1

/-- `checkSettingsArray`'s error collection: first the ignored-scope
entries, then every setting in registry order. -/
def checkSettingsArray (ign : List String) (ss : List Setting) : List String :=
  let errs :=
    ign.foldl (fun errs sc =>
      if scopes.contains sc then errs
      else logSettingsError errs ("ignored scope " ++ sc ++ " does not exist.")) []
  ss.enum.foldl (fun errs is => checkSetting is.1 is.2 errs) errs

/-- `Array.prototype.join(",")`, the primitive conversion JS applies to
the error array in `errors != 0`. -/
def jsJoin : List String → String
  | [] => ""
  | [x] => x
  | x :: xs => x ++ "," ++ jsJoin xs

/-- The JS test `errors != 0` on the collected error array: the array
converts to its comma-join, which is then compared numerically with `0`
(an empty join converts to `0`; a join that is not a numeric literal is
`NaN` and unequal to everything). -/
def jsListNeZero (l : List String) : Bool :=
  !(toNumOfStr? (jsJoin l) == some 0)

/-- Whole-validator outcome: `checkSettingsArray` throws exactly when
`errors != 0` holds for the collected list. -/
def checkSettingsThrows (ign : List String) (ss : List Setting) : Bool :=
  jsListNeZero (checkSettingsArray ign ss)

/-! ## Loader (`loadSettings`) -/

/-- The parsed URL query mapping (an external collaborator): `none` for
a parameter that is absent, or present without a `=` (both read back as
`undefined`). -/
def lookupQ (q : String → Option String) (k : String) : JSVal :=
  match q k with
  | none => .undef
  | some s => .str s

/-- The two coercion lines of the `"get"` branch:
`if(paramValue == "true") paramValue = true; else if(paramValue ==
"false") paramValue = false;`. -/
def coerceParam (v : JSVal) : JSVal :=
  if jsLooseEq v (.str "true") then .bool true
  else if jsLooseEq v (.str "false") then .bool false
  else v

/-- The `"get"` branch of the load loop for one control: read
`urlVars[control.name]`, coerce, and record under `val[scope]` only when
the result is truthy (`if(paramValue) setting.val[scope] = paramValue`). -/
def applyGetControl (q : String → Option String) (c : Control) (val : String → JSVal) :
    String → JSVal :=
  let pv := coerceParam (lookupQ q (jsToString c.name))
  if truthy pv then updateVal val (jsToString c.scope) pv else val

/-- The control loop of `loadSettings` for one setting: the `"get"`
branch seeds conditionally, the `"custom"` branch calls the callback (a
TypeError when it is not callable — unreachable once the validator has
passed) and records its result unconditionally, any other type does
nothing at this step. -/
def seedControls (q : String → Option String) : List Control → (String → JSVal) →
    Except JSErr (String → JSVal)
  | [], val => .ok val
  | c :: rest, val =>
    if c.type = JSVal.str "get" then
      seedControls q rest (applyGetControl q c val)
    else if c.type = JSVal.str "custom" then
      match c.callback with
      | .fn f => seedControls q rest (updateVal val (jsToString c.scope) (f ()))
      | _ => .error JSErr.typeError
    else seedControls q rest val

/-- Per-setting seeding: `setting.val = []; setting.val["local"] =
setting.defaultValue;` followed by the control loop.  Reading
`setting.controls.length` when the property is absent is a TypeError
(unreachable once the validator has passed). -/
def seedSetting (q : String → Option String) (s : Setting) : Except JSErr Setting :=
  match s.controls with
  | none => .error JSErr.typeError
  | some cs =>
    (seedControls q cs (updateVal (fun _ => JSVal.undef) "local" s.defaultValue)).map
      (fun v => { s with val := v })

/-- The commit loop of `loadSettings` for one seeded setting: for every
scope whose seeded value is defined, route it through `setValue` (which
re-records it on the first registry entry carrying that name and drives
the external widget/callback/persistence side effects). -/
def commitScopes (s : Setting) : List String → SettingsState → SettingsState × Option JSErr
  | [], st => (st, none)
  | sc :: rest, st =>
    if s.val sc == JSVal.undef then commitScopes s rest st
    else
      match setValueRun st s.name sc (s.val sc) with
      | (st1, none) => commitScopes s rest st1
      | (st1, some e) => (st1, some e)

/-- The main loop of `loadSettings` over the registry indices: seed
`settings[i]`, store the seeded setting back, then commit its defined
scopes, aborting on the first error. -/
def loadEach (q : String → Option String) : List Nat → SettingsState →
    SettingsState × Option JSErr
  | [], st => (st, none)
  | i :: rest, st =>
    match st.settings.get? i with
    | none => loadEach q rest st
    | some s =>
      match seedSetting q s with
      | .error e => (st, some e)
      | .ok s1 =>
        let st1 := { st with settings := st.settings.set i s1 }
        match commitScopes s1 scopes st1 with
        | (st2, none) => loadEach q rest st2
        | (st2, some e) => (st2, some e)

/-- `exports.loadSettings`: validate (throwing when `errors != 0`), seed
and commit every setting, run the final round of setting callbacks (an
external side effect), set `loaded`, and save the cookie (external). -/
def loadSettingsRun (q : String → Option String) (st : SettingsState) :
    SettingsState × Option JSErr :=
  if jsListNeZero (checkSettingsArray st.ignoredScopes st.settings) then
    (st, some (JSErr.thrown "Errors occurred when checking the setting-definitions. Check the log."))
  else
    match loadEach q (List.range st.settings.length) st with
    | (st1, some e) => (st1, some e)
    | (st1, none) => ({ st1 with loaded := true }, none)

/-! ## The registry of `settings.js`

The `settings` array of the source, parameterised by the parsed URL
query mapping `q` (the module-level `urlVars`), which the
`showAuthorColors` custom callback closes over. -/

/-- The twelve settings of the source file, in declaration order. -/
def realSettings (q : String → Option String) : List Setting := [
  { name := .str "name", defaultValue := .null, controls := some [
      { scope := .str "get", type := .str "get", name := .str "userName" } ] },
  { name := .str "userId", defaultValue := .null, controls := some [] },
  { name := .str "userColor", defaultValue := .null, controls := some [
      { scope := .str "get", type := .str "get", name := .str "userColor" } ] },
  { name := .str "language", defaultValue := .str "en", controls := some [
      { scope := .str "get", type := .str "get", name := .str "lang" } ] },
  { name := .str "rtl", defaultValue := .bool false, controls := some [
      { scope := .str "get", type := .str "get", name := .str "rtl" } ] },
  { name := .str "ignoreGlobal", defaultValue := .bool false, controls := some [
      { scope := .str "get", type := .str "get", name := .str "ignoreGlobal" },
      { scope := .str "local", type := .str "control", id := .str "options-ignore-global" } ] },
  { name := .str "showAuthorColors", defaultValue := .bool true, controls := some [
      { scope := .str "local", type := .str "control", id := .str "options-colorscheck" },
      { scope := .str "global", type := .str "control", id := .str "options-colorscheck-global" },
      { scope := .str "get", type := .str "custom",
        callback := .fn (fun _ =>
          match q "noColors" with
          | some s => .bool (s == "false")
          | none => .undef) } ] },
  { name := .str "showLineNumbers", defaultValue := .bool true, controls := some [
      { scope := .str "get", type := .str "get", name := .str "showLineNumbers" },
      { scope := .str "local", type := .str "control", id := .str "options-linenoscheck" },
      { scope := .str "global", type := .str "control", id := .str "options-linenoscheck-global" } ] },
  { name := .str "useMonospaceFont", defaultValue := .bool false, controls := some [
      { scope := .str "get", type := .str "get", name := .str "useMonospaceFont" },
      { scope := .str "local", type := .str "control", id := .str "viewfontmenu" },
      { scope := .str "global", type := .str "control", id := .str "viewfontmenu-global" } ] },
  { name := .str "stickychat", defaultValue := .bool false, controls := some [
      { scope := .str "get", type := .str "get", name := .str "alwaysShowChat" },
      { scope := .str "local", type := .str "control", id := .str "options-stickychat" } ] },
  { name := .str "showControls", defaultValue := .bool true, controls := some [
      { scope := .str "get", type := .str "get", name := .str "showControls" } ] },
  { name := .str "showChat", defaultValue := .bool true, controls := some [
      { scope := .str "get", type := .str "get", name := .str "showChat" } ] } ]

/-- The module state at load time: the registry, no ignored scope,
not yet loaded. -/
def realInitState (q : String → Option String) : SettingsState :=
  { settings := realSettings q }

/-- The empty query mapping: a navigation URL with no parameters. -/
def qNone : String → Option String := fun _ => none

/-- A query mapping carrying `rtl=false`. -/
def qRtlFalse : String → Option String := fun k => if k = "rtl" then some "false" else none

/-- A query mapping carrying `userName=Bob`. -/
def qUserBob : String → Option String := fun k => if k = "userName" then some "Bob" else none

/-- The registry state with the scopes `"global"` and `"get"` ignored,
leaving only `"local"` active. -/
def onlyLocalState : SettingsState :=
  { settings := realSettings qNone, ignoredScopes := ["global", "get"] }

/-- A deliberately defective registry exercising the validator: the
ignored-scope list names an unknown scope, the single setting has no
name, its first control is a `get` binding without a parameter name and
its second control carries an unrecognised type. -/
def badIgnored : List String := ["bogus"]

/-- A `get` binding without a parameter name. -/
def badGetControl : Control := { scope := .str "get", type := .str "get" }

/-- A binding with an unrecognised type. -/
def badTypeControl : Control := { scope := .str "local", type := .str "weird" }

/-- The nameless setting carrying the two defective bindings. -/
def badSetting0 : Setting :=
  { name := .undef, defaultValue := .null, controls := some [badGetControl, badTypeControl] }

/-- The defective settings array paired with `badIgnored`. -/
def badSettings : List Setting := [badSetting0]

/-- The registry state after a full load from an empty URL. -/
def loadedState : SettingsState := (loadSettingsRun qNone (realInitState qNone)).1

/-- A free-standing setting with one truthy `"local"` value, used to
exhibit the all-scopes behaviour of the exporter. -/
def oneLocalSetting : Setting :=
  { name := .str "x", defaultValue := .undef, controls := some [],
    val := fun sc => if sc = "local" then .bool true else .undef }

/-- The relation between the restricted and the unrestricted export:
same key, inner pairs a subset. -/
def exportLe (p q : String × List (String × JSVal)) : Prop :=
  p.1 = q.1 ∧ ∀ x ∈ p.2, x ∈ q.2

/-- Name, default and controls agree: only the value map differs. -/
def sameShape (a b : Setting) : Prop :=
  a.name = b.name ∧ a.defaultValue = b.defaultValue ∧ a.controls = b.controls

/-- Pointwise: position `i` of the second registry holds a value-map
modification of position `i` of the first. -/
def shapedFrom (ss ss1 : List Setting) : Prop :=
  ∀ i : Nat, (ss.get? i = none ∧ ss1.get? i = none)
    ∨ ∃ s s1, ss.get? i = some s ∧ ss1.get? i = some s1 ∧ sameShape s s1

/-- Pointwise: a defined `"local"` entry stays defined. -/
def localKeeps (ss ss1 : List Setting) : Prop :=
  ∀ i s s1, ss.get? i = some s → ss1.get? i = some s1 →
    s.val "local" ≠ JSVal.undef → s1.val "local" ≠ JSVal.undef

/-- What every step of the loader preserves: the ignored-scope list, the
shape of the registry, and definedness of `"local"` entries. -/
def loadPres (st st1 : SettingsState) : Prop :=
  st1.ignoredScopes = st.ignoredScopes ∧ shapedFrom st.settings st1.settings
  ∧ localKeeps st.settings st1.settings

/-! ## Resolver lemmas -/

/-- The qualifying test of the resolver loop: the scope is not ignored
and the setting has a defined value for it. -/
def scopeQualifies (ign : List String) (s : Setting) (sc : String) : Bool :=
  !(ign.contains sc) && !(s.val sc == JSVal.undef)

/-- When the setting lookup succeeded, the resolver loop returns the
value of the first qualifying scope of its list, and `null` when none
qualifies. -/
theorem getValueScan_eq_find (ign : List String) (s : Setting) (l : List String) :
    getValueScan ign (some s) l = .ok
      (match l.find? (scopeQualifies ign s) with
       | some sc => s.val sc
       | none => JSVal.null) := by
  induction l with
  | nil => rfl
  | cons sc rest ih =>
    by_cases hig : sc ∈ ign
    · simp [getValueScan, List.find?_cons, scopeQualifies, hig, ih]
    · by_cases hv : s.val sc = JSVal.undef
      · simp [getValueScan, List.find?_cons, scopeQualifies, hig, hv, ih]
      · simp [getValueScan, List.find?_cons, scopeQualifies, hig, hv]

end Settings

namespace Settings

/-- C1.  For every registered setting name, `getValue(name)` scans the
scope list `["local", "global", "get"]` in that order and returns the
value of the first scope that is not in the ignored-scope list and has a
defined entry in the setting's value map; when no scope qualifies it
returns `null`. -/
theorem C1_getValue_first_qualifying_scope (st : SettingsState) (name : JSVal) (s : Setting)
    (h : getSetting st.settings name = some s) :
    getValueExc st name = .ok
      (match scopes.find? (scopeQualifies st.ignoredScopes s) with
       | some sc => s.val sc
       | none => JSVal.null) := by
  rw [getValueExc, h, getValueScan_eq_find]

/-- Witness for C1 at the registry before loading: every value map is
empty, so no scope qualifies and the resolver returns `null`. -/
theorem C1_witness :
    getValueExc (realInitState qNone) (JSVal.str "name") = .ok JSVal.null :=
  (C1_getValue_first_qualifying_scope (realInitState qNone) (JSVal.str "name") _ rfl).trans rfl

/-- C3.  `setValue` with a scope outside `["local", "global", "get"]`
throws `"Unknown scope"` before touching anything: the returned state is
the input state, so no setting's value map is mutated. -/
theorem C3_setValue_unknown_scope (st : SettingsState) (name : JSVal) (scope : String)
    (v : JSVal) (h : scope ∉ scopes) :
    setValueRun st name scope v = (st, some (JSErr.thrown "Unknown scope")) := by
  simp [setValueRun, h]

/-- Witness for C3: the scope `"bogus"` is rejected on the registry
state and the state comes back unchanged. -/
theorem C3_witness :
    setValueRun (realInitState qNone) (JSVal.str "name") "bogus" JSVal.null
      = (realInitState qNone, some (JSErr.thrown "Unknown scope")) :=
  C3_setValue_unknown_scope (realInitState qNone) (JSVal.str "name") "bogus" JSVal.null
    (by decide)

/-! ## C2: query-parameter seeding -/

/-- Counterexample to C2 as stated: the coerced boolean `false` is not
recorded.  The URL carries
`rtl=false`, the `rtl` setting has a `get` binding on the `"get"` scope
for that parameter, the load completes, and yet the `"get"` entry of the
setting's value map is still undefined afterwards — refuting the claim
that a present `"false"` is coerced and recorded. -/
theorem C2_counterexample :
    qRtlFalse "rtl" = some "false"
    ∧ (loadSettingsRun qRtlFalse (realInitState qRtlFalse)).2 = none
    ∧ ((getSetting (loadSettingsRun qRtlFalse (realInitState qRtlFalse)).1.settings
        (JSVal.str "rtl")).map (fun s => s.val "get")) = some JSVal.undef :=
  ⟨rfl, rfl, rfl⟩

/-- C2 (amended).  During `loadSettings`, a `get` binding records the
coerced parameter only when the coerced result is truthy: a present
`"true"` is recorded as boolean `true`, any other non-empty string other
than `"false"` is recorded verbatim, while an absent or empty parameter
— and equally the literal `"false"`, whose coercion to boolean `false`
is falsy — records nothing. -/
theorem C2_get_param_seeding (q : String → Option String) (c : Control) (rest : List Control)
    (val : String → JSVal) (hty : c.type = JSVal.str "get") :
    seedControls q (c :: rest) val = seedControls q rest
      (match q (jsToString c.name) with
       | none => val
       | some p =>
         if p = "true" then updateVal val (jsToString c.scope) (JSVal.bool true)
         else if p = "" ∨ p = "false" then val
         else updateVal val (jsToString c.scope) (JSVal.str p)) := by
  simp only [seedControls, hty, if_pos rfl]
  unfold applyGetControl lookupQ coerceParam
  cases hq : q (jsToString c.name) with
  | none => simp [jsLooseEq, truthy]
  | some p =>
    by_cases ht : p = "true"
    · subst ht; simp [jsLooseEq, truthy]
    · by_cases hf : p = "false"
      · subst hf; simp [jsLooseEq, truthy]
      · by_cases he : p = ""
        · subst he; simp [jsLooseEq, truthy]
        · simp [jsLooseEq, truthy, ht, hf, he]

/-- Witness for C2 at the `rtl=false` query: the seeding step leaves the
value map untouched. -/
theorem C2_witness :
    seedControls qRtlFalse
      [{ scope := JSVal.str "get", type := JSVal.str "get", name := JSVal.str "rtl" }]
      (fun _ => JSVal.undef)
      = .ok (fun _ => JSVal.undef) :=
  (C2_get_param_seeding qRtlFalse
    { scope := JSVal.str "get", type := JSVal.str "get", name := JSVal.str "rtl" }
    [] (fun _ => JSVal.undef) rfl).trans rfl

/-! ## C5: set-then-get round trip -/

/-- `setValue` on the first registry entry matching a name leaves that
entry findable with its value map updated at the written scope. -/
theorem getSetting_setValFirst (ss : List Setting) (name : JSVal) (sc : String) (v : JSVal)
    (s : Setting) (h : getSetting ss name = some s) :
    getSetting (setValFirst name sc v ss) name
      = some { s with val := updateVal s.val sc v } := by
  induction ss with
  | nil => simp [getSetting] at h
  | cons a rest ih =>
    by_cases ha : jsLooseEq a.name name = true
    · have hs : a = s := by
        simpa [getSetting, List.find?_cons, ha] using h
      subst hs
      simp [getSetting, setValFirst, List.find?_cons, ha]
    · have ha' : jsLooseEq a.name name = false := by
        simpa using ha
      have h' : getSetting rest name = some s := by
        simpa [getSetting, List.find?_cons, ha'] using h
      have := ih h'
      simpa [getSetting, setValFirst, List.find?_cons, ha'] using this

/-- When every scope of the list other than `scope` is ignored, the
resolver loop returns the (defined) value recorded at `scope`. -/
theorem getValueScan_only_scope (ign : List String) (s : Setting) (scope : String) (v : JSVal)
    (l : List String) (hmem : scope ∈ l) (hoth : ∀ sc ∈ l, sc ≠ scope → sc ∈ ign)
    (hni : scope ∉ ign) (hval : s.val scope = v) (hv : v ≠ JSVal.undef) :
    getValueScan ign (some s) l = .ok v := by
  induction l with
  | nil => cases hmem
  | cons a rest ih =>
    by_cases hax : a = scope
    · subst hax
      simp [getValueScan, hni, hval, hv]
    · have haig : a ∈ ign := hoth a (List.mem_cons_self a rest) hax
      have hmem' : scope ∈ rest := by
        rcases List.mem_cons.mp hmem with h | h
        · exact absurd h.symm hax
        · exact h
      simp only [getValueScan]
      rw [if_pos (by simpa using haig)]
      exact ih hmem' (fun sc hsc hne => hoth sc (List.mem_cons_of_mem a hsc) hne)

/-- Counterexample to C5 as stated: the round trip fails for the value
`undefined`.  With `"global"` and
`"get"` ignored, writing `undefined` to the `"local"` scope of the
`name` setting succeeds, but re-resolving returns `null`, not the
written value. -/
theorem C5_counterexample :
    ("local" ∈ scopes ∧ "global" ∈ onlyLocalState.ignoredScopes
      ∧ "get" ∈ onlyLocalState.ignoredScopes ∧ "local" ∉ onlyLocalState.ignoredScopes)
    ∧ (setValueRun onlyLocalState (JSVal.str "name") "local" JSVal.undef).2 = none
    ∧ getValueExc (setValueRun onlyLocalState (JSVal.str "name") "local" JSVal.undef).1
        (JSVal.str "name") = .ok JSVal.null
    ∧ JSVal.null ≠ JSVal.undef :=
  ⟨by decide, rfl, rfl, by decide⟩

/-- C5 (amended).  For a registered name, a recognised scope and a
*defined* value `v` (the one exception is `undefined`, which the
resolver cannot distinguish from an absent entry and reads back as
`null`), `setValue(name, scope, v)` succeeds and re-resolving with every
other scope ignored returns exactly `v`. -/
theorem C5_set_then_get_roundtrip (st : SettingsState) (name : JSVal) (scope : String)
    (v : JSVal) (s : Setting)
    (hreg : getSetting st.settings name = some s)
    (hsc : scope ∈ scopes)
    (hoth : ∀ sc ∈ scopes, sc ≠ scope → sc ∈ st.ignoredScopes)
    (hni : scope ∉ st.ignoredScopes)
    (hv : v ≠ JSVal.undef) :
    (setValueRun st name scope v).2 = none
    ∧ getValueExc (setValueRun st name scope v).1 name = .ok v := by
  have hrun : setValueRun st name scope v
      = ({ st with settings := setValFirst name scope v st.settings }, none) := by
    simp [setValueRun, hsc, hreg]
  refine ⟨by rw [hrun], ?_⟩
  rw [hrun]
  have hfind := getSetting_setValFirst st.settings name scope v s hreg
  rw [getValueExc]
  simp only [hfind]
  exact getValueScan_only_scope st.ignoredScopes _ scope v scopes hsc hoth hni
    (by simp [updateVal]) hv

/-- Witness for C5: writing `true` to the `"local"` scope of `name`
with the other scopes ignored reads back as `true`. -/
theorem C5_witness :
    (setValueRun onlyLocalState (JSVal.str "name") "local" (JSVal.bool true)).2 = none
    ∧ getValueExc (setValueRun onlyLocalState (JSVal.str "name") "local" (JSVal.bool true)).1
        (JSVal.str "name") = .ok (JSVal.bool true) :=
  C5_set_then_get_roundtrip onlyLocalState (JSVal.str "name") "local" (JSVal.bool true) _
    rfl (by decide) (by decide) (by decide) (by decide)

/-! ## C6: ignore-scope toggling -/

/-- C6.  `setIgnoreScope` is idempotent: for a recognised scope whose
current multiplicity in the ignored list is at most one (which every
reachable state satisfies, the list being only ever extended through the
duplicate-guarding push), ignoring it twice leaves exactly one
membership, the second call changing nothing; disabling a scope that is
not ignored changes nothing; an unrecognised scope makes the call throw
with the state unchanged. -/
theorem C6_setIgnoreScope_idempotent (st : SettingsState) (scope : String) :
    (scope ∉ scopes → ∀ ig : Bool,
      setIgnoreScopeRun st scope ig
        = (st, some (JSErr.thrown ("Scope " ++ scope ++ " does not exist."))))
    ∧ (scope ∈ scopes → st.ignoredScopes.count scope ≤ 1 →
        ((setIgnoreScopeRun st scope true).1.ignoredScopes.count scope = 1
         ∧ setIgnoreScopeRun (setIgnoreScopeRun st scope true).1 scope true
             = ((setIgnoreScopeRun st scope true).1, none)))
    ∧ (scope ∈ scopes → scope ∉ st.ignoredScopes →
        setIgnoreScopeRun st scope false = (st, none)) := by
  refine ⟨fun h ig => by simp [setIgnoreScopeRun, h], fun hsc hcnt => ?_, fun hsc hni => ?_⟩
  · by_cases hmem : scope ∈ st.ignoredScopes
    · have h1 : setIgnoreScopeRun st scope true = (st, none) := by
        simp [setIgnoreScopeRun, hsc, hmem]
      rw [h1]
      have : st.ignoredScopes.count scope = 1 := by
        have := List.count_pos_iff.mpr hmem
        omega
      exact ⟨this, h1⟩
    · have h1 : setIgnoreScopeRun st scope true
          = ({ st with ignoredScopes := st.ignoredScopes ++ [scope] }, none) := by
        simp [setIgnoreScopeRun, hsc, hmem]
      rw [h1]
      constructor
      · simp [List.count_append]
        simpa using List.count_eq_zero.mpr hmem
      · have hmem2 : scope ∈ st.ignoredScopes ++ [scope] := by simp
        simp [setIgnoreScopeRun, hsc, hmem2]
  · simp [setIgnoreScopeRun, hsc, hni]

/-- Witness for C6: ignoring `"global"` twice from the pristine state
yields one membership and a stable state; un-ignoring the non-ignored
`"local"` is a no-op; the scope `"bogus"` is rejected. -/
theorem C6_witness :
    ((setIgnoreScopeRun (realInitState qNone) "global" true).1.ignoredScopes.count "global" = 1
     ∧ setIgnoreScopeRun (setIgnoreScopeRun (realInitState qNone) "global" true).1 "global" true
         = ((setIgnoreScopeRun (realInitState qNone) "global" true).1, none))
    ∧ setIgnoreScopeRun (realInitState qNone) "local" false = (realInitState qNone, none)
    ∧ setIgnoreScopeRun (realInitState qNone) "bogus" true
        = (realInitState qNone, some (JSErr.thrown ("Scope " ++ "bogus" ++ " does not exist."))) :=
  ⟨(C6_setIgnoreScope_idempotent (realInitState qNone) "global").2.1 (by decide) (by decide),
   (C6_setIgnoreScope_idempotent (realInitState qNone) "local").2.2 (by decide) (by decide),
   (C6_setIgnoreScope_idempotent (realInitState qNone) "bogus").1 (by decide) true⟩

/-! ## C4: validator lemmas -/

/-- Logging preserves previously collected errors. -/
theorem mem_logSettingsError (errs : List String) (m e : String) (h : e ∈ errs) :
    e ∈ logSettingsError errs m :=
  List.mem_append_left _ h

/-- Logging records the tagged message. -/
theorem self_mem_logSettingsError (errs : List String) (m : String) :
    ("settings error: " ++ m) ∈ logSettingsError errs m :=
  List.mem_append_right _ (List.mem_singleton.mpr rfl)

/-- A conditional log step preserves previously collected errors. -/
theorem mem_ite_log (P : Prop) [Decidable P] (l : List String) (m e : String) (h : e ∈ l) :
    e ∈ (if P then l else logSettingsError l m) := by
  split_ifs
  · exact h
  · exact mem_logSettingsError l m e h

/-- The type-presence stage preserves previously collected errors. -/
theorem mem_ctlTypePresent (sn : JSVal) (j : Nat) (c : Control) (errs : List String)
    (e : String) (h : e ∈ errs) : e ∈ ctlTypePresent sn j c errs := by
  rw [ctlTypePresent]
  exact mem_ite_log _ _ _ _ h

/-- The type-validity stage preserves previously collected errors. -/
theorem mem_ctlTypeValid (sn : JSVal) (j : Nat) (c : Control) (errs : List String)
    (e : String) (h : e ∈ errs) : e ∈ ctlTypeValid sn j c errs := by
  rw [ctlTypeValid]
  exact mem_ite_log _ _ _ _ h

/-- The scope-presence stage preserves previously collected errors. -/
theorem mem_ctlScopePresent (sn : JSVal) (j : Nat) (c : Control) (errs : List String)
    (e : String) (h : e ∈ errs) : e ∈ ctlScopePresent sn j c errs := by
  rw [ctlScopePresent]
  exact mem_ite_log _ _ _ _ h

/-- The scope-validity stage preserves previously collected errors. -/
theorem mem_ctlScopeValid (sn : JSVal) (j : Nat) (c : Control) (errs : List String)
    (e : String) (h : e ∈ errs) : e ∈ ctlScopeValid sn j c errs := by
  rw [ctlScopeValid]
  exact mem_ite_log _ _ _ _ h

/-- The kind-specific stage preserves previously collected errors. -/
theorem mem_ctlKindChecks (sn : JSVal) (j : Nat) (c : Control) (errs : List String)
    (e : String) (h : e ∈ errs) : e ∈ ctlKindChecks sn j c errs := by
  rw [ctlKindChecks]
  split_ifs <;> first | exact h | exact mem_logSettingsError _ _ _ h

/-- The per-control checks preserve previously collected errors. -/
theorem mem_checkControl (sn : JSVal) (j : Nat) (c : Control) (errs : List String)
    (e : String) (h : e ∈ errs) : e ∈ checkControl sn j c errs := by
  rw [checkControl]
  exact mem_ctlKindChecks sn j c _ e (mem_ctlScopeValid sn j c _ e
    (mem_ctlScopePresent sn j c _ e (mem_ctlTypeValid sn j c _ e
      (mem_ctlTypePresent sn j c errs e h))))

/-- The control loop of the validator preserves previously collected
errors. -/
theorem mem_foldl_checkControl (sn : JSVal) (l : List (Nat × Control)) (errs : List String)
    (e : String) (h : e ∈ errs) :
    e ∈ l.foldl (fun errs jc => checkControl sn jc.1 jc.2 errs) errs := by
  induction l generalizing errs with
  | nil => exact h
  | cons a t ih => exact ih _ (mem_checkControl sn a.1 a.2 errs e h)

/-- A message deposited by the checks of one control of the list
survives to the end of the control loop. -/
theorem msg_in_foldl_checkControl (sn : JSVal) (l : List (Nat × Control)) (errs : List String)
    (j : Nat) (c : Control) (hmem : (j, c) ∈ l) (m : String)
    (hm : ∀ es : List String, m ∈ checkControl sn j c es) :
    m ∈ l.foldl (fun errs jc => checkControl sn jc.1 jc.2 errs) errs := by
  induction l generalizing errs with
  | nil => cases hmem
  | cons a t ih =>
    rcases List.mem_cons.mp hmem with rfl | h
    · exact mem_foldl_checkControl sn t _ m (hm errs)
    · exact ih _ h

/-- A `get` control with a falsy parameter name is reported. -/
theorem checkControl_get_msg (sn : JSVal) (j : Nat) (c : Control) (errs : List String)
    (hty : c.type = JSVal.str "get") (hn : truthy c.name = false) :
    ("settings error: Name of get-parameter for control " ++ toString j ++ " in setting "
      ++ jsToString sn ++ " not given") ∈ checkControl sn j c errs := by
  have h1 : ¬(c.type = JSVal.str "control") := by simp [hty]
  rw [checkControl, ctlKindChecks]
  rw [if_neg h1, if_pos hty, if_neg (by simp [hn])]
  exact self_mem_logSettingsError _ _

/-- A control with an unrecognised type is reported. -/
theorem checkControl_invalid_type_msg (sn : JSVal) (j : Nat) (c : Control)
    (errs : List String)
    (hty : ¬(c.type = JSVal.str "control" ∨ c.type = JSVal.str "get"
      ∨ c.type = JSVal.str "custom")) :
    ("settings error: invalid type " ++ jsToString c.type ++ " for setting " ++ toString j
      ++ " in setting " ++ jsToString sn) ∈ checkControl sn j c errs := by
  rw [checkControl]
  refine mem_ctlKindChecks sn j c _ _ (mem_ctlScopeValid sn j c _ _
    (mem_ctlScopePresent sn j c _ _ ?_))
  rw [ctlTypeValid, if_neg hty]
  exact self_mem_logSettingsError _ _

/-- The per-setting checks preserve previously collected errors. -/
theorem mem_checkSetting (i : Nat) (s : Setting) (errs : List String) (e : String)
    (h : e ∈ errs) : e ∈ checkSetting i s errs := by
  simp only [checkSetting]
  have h1 : e ∈ (if truthy s.name = true then errs
      else logSettingsError errs ("name of setting " ++ toString i ++ " not given")) :=
    mem_ite_log _ _ _ _ h
  cases hc : s.controls with
  | none => exact mem_logSettingsError _ _ _ h1
  | some cs => exact mem_foldl_checkControl s.name cs.enum _ _ h1

/-- A setting with a falsy name is reported. -/
theorem checkSetting_name_msg (i : Nat) (s : Setting) (errs : List String)
    (hn : truthy s.name = false) :
    ("settings error: name of setting " ++ toString i ++ " not given")
      ∈ checkSetting i s errs := by
  simp only [checkSetting]
  rw [if_neg (by simp [hn])]
  cases hc : s.controls with
  | none => exact mem_logSettingsError _ _ _ (self_mem_logSettingsError _ _)
  | some cs => exact mem_foldl_checkControl s.name cs.enum _ _ (self_mem_logSettingsError _ _)

/-- A message produced by the checks of one control of a setting is
reported by the setting's checks. -/
theorem checkSetting_control_msg (i : Nat) (s : Setting) (cs : List Control) (j : Nat)
    (c : Control) (errs : List String) (hcs : s.controls = some cs) (hjc : cs.get? j = some c)
    (m : String) (hm : ∀ es : List String, m ∈ checkControl s.name j c es) :
    m ∈ checkSetting i s errs := by
  simp only [checkSetting, hcs]
  exact msg_in_foldl_checkControl s.name cs.enum _ j c
    (List.mem_enum_iff_getElem?.mpr (by simpa using hjc)) m hm

/-- The settings loop of the validator preserves previously collected
errors. -/
theorem mem_foldl_checkSetting (l : List (Nat × Setting)) (errs : List String) (e : String)
    (h : e ∈ errs) :
    e ∈ l.foldl (fun errs is => checkSetting is.1 is.2 errs) errs := by
  induction l generalizing errs with
  | nil => exact h
  | cons a t ih => exact ih _ (mem_checkSetting a.1 a.2 errs e h)

/-- A message deposited by the checks of one setting survives to the
end of the settings loop. -/
theorem msg_in_foldl_checkSetting (l : List (Nat × Setting)) (errs : List String) (i : Nat)
    (s : Setting) (hmem : (i, s) ∈ l) (m : String)
    (hm : ∀ es : List String, m ∈ checkSetting i s es) :
    m ∈ l.foldl (fun errs is => checkSetting is.1 is.2 errs) errs := by
  induction l generalizing errs with
  | nil => cases hmem
  | cons a t ih =>
    rcases List.mem_cons.mp hmem with rfl | h
    · exact mem_foldl_checkSetting t _ m (hm errs)
    · exact ih _ h

/-- The ignored-scope loop preserves previously collected errors. -/
theorem mem_ign_foldl (l : List String) (errs : List String) (e : String) (h : e ∈ errs) :
    e ∈ l.foldl (fun errs sc =>
      if scopes.contains sc then errs
      else logSettingsError errs ("ignored scope " ++ sc ++ " does not exist.")) errs := by
  induction l generalizing errs with
  | nil => exact h
  | cons a t ih => exact ih _ (mem_ite_log _ _ _ _ h)

/-- An ignored scope outside the recognised three is reported. -/
theorem ignmsg_in_foldl (l : List String) (errs : List String) (sc : String)
    (hmem : sc ∈ l) (hsc : sc ∉ scopes) :
    ("settings error: ignored scope " ++ sc ++ " does not exist.")
      ∈ l.foldl (fun errs sc =>
          if scopes.contains sc then errs
          else logSettingsError errs ("ignored scope " ++ sc ++ " does not exist.")) errs := by
  induction l generalizing errs with
  | nil => cases hmem
  | cons a t ih =>
    rcases List.mem_cons.mp hmem with rfl | h
    · refine mem_ign_foldl t _ _ ?_
      show ("settings error: ignored scope " ++ sc ++ " does not exist.")
        ∈ (if scopes.contains sc = true then errs
           else logSettingsError errs ("ignored scope " ++ sc ++ " does not exist."))
      rw [if_neg (by simpa using hsc)]
      exact self_mem_logSettingsError _ _
    · exact ih _ h

/-! ## C4: every collected error is tagged -/

/-- Logging a message keeps every entry tagged. -/
theorem allErr_log (errs : List String) (m : String)
    (h : ∀ e ∈ errs, ∃ m0, e = "settings error: " ++ m0) :
    ∀ e ∈ logSettingsError errs m, ∃ m0, e = "settings error: " ++ m0 := by
  intro e he
  rcases List.mem_append.mp he with h1 | h1
  · exact h e h1
  · exact ⟨m, by simpa using h1⟩

/-- A conditional log step keeps every entry tagged. -/
theorem allErr_ite_log (P : Prop) [Decidable P] (l : List String) (m : String)
    (h : ∀ e ∈ l, ∃ m0, e = "settings error: " ++ m0) :
    ∀ e ∈ (if P then l else logSettingsError l m), ∃ m0, e = "settings error: " ++ m0 := by
  split_ifs
  · exact h
  · exact allErr_log l m h

/-- The type-presence stage keeps every entry tagged. -/
theorem allErr_ctlTypePresent (sn : JSVal) (j : Nat) (c : Control) (errs : List String)
    (h : ∀ e ∈ errs, ∃ m0, e = "settings error: " ++ m0) :
    ∀ e ∈ ctlTypePresent sn j c errs, ∃ m0, e = "settings error: " ++ m0 := by
  rw [ctlTypePresent]
  exact allErr_ite_log _ _ _ h

/-- The type-validity stage keeps every entry tagged. -/
theorem allErr_ctlTypeValid (sn : JSVal) (j : Nat) (c : Control) (errs : List String)
    (h : ∀ e ∈ errs, ∃ m0, e = "settings error: " ++ m0) :
    ∀ e ∈ ctlTypeValid sn j c errs, ∃ m0, e = "settings error: " ++ m0 := by
  rw [ctlTypeValid]
  exact allErr_ite_log _ _ _ h

/-- The scope-presence stage keeps every entry tagged. -/
theorem allErr_ctlScopePresent (sn : JSVal) (j : Nat) (c : Control) (errs : List String)
    (h : ∀ e ∈ errs, ∃ m0, e = "settings error: " ++ m0) :
    ∀ e ∈ ctlScopePresent sn j c errs, ∃ m0, e = "settings error: " ++ m0 := by
  rw [ctlScopePresent]
  exact allErr_ite_log _ _ _ h

/-- The scope-validity stage keeps every entry tagged. -/
theorem allErr_ctlScopeValid (sn : JSVal) (j : Nat) (c : Control) (errs : List String)
    (h : ∀ e ∈ errs, ∃ m0, e = "settings error: " ++ m0) :
    ∀ e ∈ ctlScopeValid sn j c errs, ∃ m0, e = "settings error: " ++ m0 := by
  rw [ctlScopeValid]
  exact allErr_ite_log _ _ _ h

/-- The kind-specific stage keeps every entry tagged. -/
theorem allErr_ctlKindChecks (sn : JSVal) (j : Nat) (c : Control) (errs : List String)
    (h : ∀ e ∈ errs, ∃ m0, e = "settings error: " ++ m0) :
    ∀ e ∈ ctlKindChecks sn j c errs, ∃ m0, e = "settings error: " ++ m0 := by
  rw [ctlKindChecks]
  split_ifs <;> first | exact h | exact allErr_log _ _ h

/-- The per-control checks keep every entry tagged. -/
theorem allErr_checkControl (sn : JSVal) (j : Nat) (c : Control) (errs : List String)
    (h : ∀ e ∈ errs, ∃ m0, e = "settings error: " ++ m0) :
    ∀ e ∈ checkControl sn j c errs, ∃ m0, e = "settings error: " ++ m0 := by
  rw [checkControl]
  exact allErr_ctlKindChecks sn j c _ (allErr_ctlScopeValid sn j c _
    (allErr_ctlScopePresent sn j c _ (allErr_ctlTypeValid sn j c _
      (allErr_ctlTypePresent sn j c errs h))))

/-- The control loop keeps every entry tagged. -/
theorem allErr_foldl_checkControl (sn : JSVal) (l : List (Nat × Control)) (errs : List String)
    (h : ∀ e ∈ errs, ∃ m0, e = "settings error: " ++ m0) :
    ∀ e ∈ l.foldl (fun errs jc => checkControl sn jc.1 jc.2 errs) errs,
      ∃ m0, e = "settings error: " ++ m0 := by
  induction l generalizing errs with
  | nil => exact h
  | cons a t ih => exact ih _ (allErr_checkControl sn a.1 a.2 errs h)

/-- The per-setting checks keep every entry tagged. -/
theorem allErr_checkSetting (i : Nat) (s : Setting) (errs : List String)
    (h : ∀ e ∈ errs, ∃ m0, e = "settings error: " ++ m0) :
    ∀ e ∈ checkSetting i s errs, ∃ m0, e = "settings error: " ++ m0 := by
  simp only [checkSetting]
  have h1 : ∀ e ∈ (if truthy s.name = true then errs
      else logSettingsError errs ("name of setting " ++ toString i ++ " not given")),
      ∃ m0, e = "settings error: " ++ m0 := by
    split_ifs
    · exact h
    · exact allErr_log _ _ h
  cases hc : s.controls with
  | none => exact allErr_log _ _ h1
  | some cs => exact allErr_foldl_checkControl s.name cs.enum _ h1

/-- The settings loop keeps every entry tagged. -/
theorem allErr_foldl_checkSetting (l : List (Nat × Setting)) (errs : List String)
    (h : ∀ e ∈ errs, ∃ m0, e = "settings error: " ++ m0) :
    ∀ e ∈ l.foldl (fun errs is => checkSetting is.1 is.2 errs) errs,
      ∃ m0, e = "settings error: " ++ m0 := by
  induction l generalizing errs with
  | nil => exact h
  | cons a t ih => exact ih _ (allErr_checkSetting a.1 a.2 errs h)

/-- The ignored-scope loop keeps every entry tagged. -/
theorem allErr_ign_foldl (l : List String) (errs : List String)
    (h : ∀ e ∈ errs, ∃ m0, e = "settings error: " ++ m0) :
    ∀ e ∈ l.foldl (fun errs sc =>
        if scopes.contains sc then errs
        else logSettingsError errs ("ignored scope " ++ sc ++ " does not exist.")) errs,
      ∃ m0, e = "settings error: " ++ m0 := by
  induction l generalizing errs with
  | nil => exact h
  | cons a t ih =>
    refine ih _ ?_
    exact allErr_ite_log _ _ _ h

/-- Every error the validator collects is tagged. -/
theorem allErr_checkSettingsArray (ign : List String) (ss : List Setting) :
    ∀ e ∈ checkSettingsArray ign ss, ∃ m0, e = "settings error: " ++ m0 := by
  rw [checkSettingsArray]
  exact allErr_foldl_checkSetting ss.enum _ (allErr_ign_foldl ign [] (by simp))

/-! ## C4: the throw test -/

/-- An element that fails the scan predicate survives `dropWhile`. -/
theorem mem_dropWhile_of_mem {α : Type} (p : α → Bool) (l : List α) (c : α) (hc : c ∈ l)
    (hp : p c = false) : c ∈ l.dropWhile p := by
  induction l with
  | nil => cases hc
  | cons a t ih =>
    by_cases hpa : p a = true
    · rw [List.dropWhile_cons_of_pos hpa]
      rcases List.mem_cons.mp hc with rfl | h
      · rw [hpa] at hp; cases hp
      · exact ih h
    · rw [List.dropWhile_cons_of_neg (by simpa using hpa)]
      exact hc

/-- The character data of a tagged message starts with `'s'`. -/
theorem errMsg_data (m : String) :
    ("settings error: " ++ m).data = 's' :: ("ettings error: " ++ m).data := by
  have h0 : ("settings error: " : String) = "s" ++ "ettings error: " := by decide
  rw [h0, String.append_assoc, String.data_append]
  rfl

/-- A string starting with the non-whitespace non-digit `'s'` does not
convert to a number. -/
theorem toNumOfStr?_of_s_head (s : String) (rest : List Char) (h : s.data = 's' :: rest) :
    toNumOfStr? s = none := by
  have h1 : ('s' :: rest).dropWhile isWs = 's' :: rest :=
    List.dropWhile_cons_of_neg (by decide)
  have hsmem : ('s' : Char) ∈ rest.reverse ++ ['s'] := by simp
  have hmem : ('s' : Char) ∈ ((rest.reverse ++ ['s']).dropWhile isWs) :=
    mem_dropWhile_of_mem isWs _ 's' hsmem (by decide)
  have hne : ((rest.reverse ++ ['s']).dropWhile isWs) ≠ [] := List.ne_nil_of_mem hmem
  have hnd : ((rest.reverse ++ ['s']).dropWhile isWs).all Char.isDigit = false := by
    rw [List.all_eq_false]
    exact ⟨'s', hmem, by decide⟩
  simp only [toNumOfStr?, trimChars, h, h1, List.reverse_cons]
  rw [if_neg hne, if_neg (by simp [hnd])]

/-- For a list of tagged errors, the JS test `errors != 0` holds exactly
when the list is non-empty: the empty join converts to `0`, while a
non-empty join starts with `'s'` and is `NaN`. -/
theorem jsListNeZero_iff (l : List String)
    (h : ∀ e ∈ l, ∃ m, e = "settings error: " ++ m) :
    (jsListNeZero l = true ↔ l ≠ []) := by
  cases l with
  | nil =>
    have hz : jsListNeZero [] = false := rfl
    simp [hz]
  | cons e t =>
    obtain ⟨m, hm⟩ := h e (List.mem_cons_self e t)
    have he : e.data = 's' :: ("ettings error: " ++ m).data := by rw [hm, errMsg_data]
    have hdata : ∃ r, (jsJoin (e :: t)).data = 's' :: r := by
      cases t with
      | nil => exact ⟨("ettings error: " ++ m).data, by rw [jsJoin, he]⟩
      | cons b t2 =>
        refine ⟨("ettings error: " ++ m).data ++ (",").data ++ (jsJoin (b :: t2)).data, ?_⟩
        show ((e ++ ",") ++ jsJoin (b :: t2)).data = _
        rw [String.data_append, String.data_append, he]
        simp
    obtain ⟨r, hr⟩ := hdata
    have hnone : toNumOfStr? (jsJoin (e :: t)) = none := toNumOfStr?_of_s_head _ r hr
    constructor
    · intro _
      exact List.cons_ne_nil e t
    · intro _
      simp [jsListNeZero, hnone]

/-- C4.  The validator rejects each of the four defect classes: every
collected diagnostic is tagged `"settings error: "`; the JS test
`errors != 0` — hence the throw — holds exactly when at least one error
was collected; an ignored-scope entry outside the recognised three, a
setting with a missing (falsy) name, a `get` binding with a missing or
empty parameter name, and a binding with an unrecognised kind each
deposit their own diagnostic in the collected list. -/
theorem C4_validator_rejects_defects (ign : List String) (ss : List Setting) :
    (∀ e ∈ checkSettingsArray ign ss, ∃ m, e = "settings error: " ++ m)
    ∧ (checkSettingsThrows ign ss = true ↔ checkSettingsArray ign ss ≠ [])
    ∧ (∀ sc ∈ ign, sc ∉ scopes →
        ("settings error: ignored scope " ++ sc ++ " does not exist.")
          ∈ checkSettingsArray ign ss)
    ∧ (∀ i s, ss.get? i = some s → truthy s.name = false →
        ("settings error: name of setting " ++ toString i ++ " not given")
          ∈ checkSettingsArray ign ss)
    ∧ (∀ i s cs j c, ss.get? i = some s → s.controls = some cs → cs.get? j = some c →
        c.type = JSVal.str "get" → truthy c.name = false →
        ("settings error: Name of get-parameter for control " ++ toString j
          ++ " in setting " ++ jsToString s.name ++ " not given")
          ∈ checkSettingsArray ign ss)
    ∧ (∀ i s cs j c, ss.get? i = some s → s.controls = some cs → cs.get? j = some c →
        ¬(c.type = JSVal.str "control" ∨ c.type = JSVal.str "get"
          ∨ c.type = JSVal.str "custom") →
        ("settings error: invalid type " ++ jsToString c.type ++ " for setting "
          ++ toString j ++ " in setting " ++ jsToString s.name)
          ∈ checkSettingsArray ign ss) := by
  have hall := allErr_checkSettingsArray ign ss
  refine ⟨hall, jsListNeZero_iff _ hall, ?_, ?_, ?_, ?_⟩
  · intro sc hmem hsc
    rw [checkSettingsArray]
    exact mem_foldl_checkSetting ss.enum _ _ (ignmsg_in_foldl ign [] sc hmem hsc)
  · intro i s hi hn
    rw [checkSettingsArray]
    exact msg_in_foldl_checkSetting ss.enum _ i s
      (List.mem_enum_iff_getElem?.mpr (by simpa using hi)) _
      (fun es => checkSetting_name_msg i s es hn)
  · intro i s cs j c hi hcs hjc hty hn
    rw [checkSettingsArray]
    exact msg_in_foldl_checkSetting ss.enum _ i s
      (List.mem_enum_iff_getElem?.mpr (by simpa using hi)) _
      (fun es => checkSetting_control_msg i s cs j c es hcs hjc _
        (fun es2 => checkControl_get_msg s.name j c es2 hty hn))
  · intro i s cs j c hi hcs hjc hty
    rw [checkSettingsArray]
    exact msg_in_foldl_checkSetting ss.enum _ i s
      (List.mem_enum_iff_getElem?.mpr (by simpa using hi)) _
      (fun es => checkSetting_control_msg i s cs j c es hcs hjc _
        (fun es2 => checkControl_invalid_type_msg s.name j c es2 hty))

/-- Witness for C4 on the defective registry: all four diagnostics are
collected and the validator throws. -/
theorem C4_witness :
    checkSettingsThrows badIgnored badSettings = true
    ∧ ("settings error: ignored scope bogus does not exist.")
        ∈ checkSettingsArray badIgnored badSettings
    ∧ ("settings error: name of setting " ++ toString 0 ++ " not given")
        ∈ checkSettingsArray badIgnored badSettings
    ∧ ("settings error: Name of get-parameter for control " ++ toString 0
        ++ " in setting " ++ jsToString badSetting0.name ++ " not given")
        ∈ checkSettingsArray badIgnored badSettings
    ∧ ("settings error: invalid type " ++ jsToString badTypeControl.type ++ " for setting "
        ++ toString 1 ++ " in setting " ++ jsToString badSetting0.name)
        ∈ checkSettingsArray badIgnored badSettings := by
  obtain ⟨hall, hiff, hig, hname, hget, hty⟩ :=
    C4_validator_rejects_defects badIgnored badSettings
  have h1 := hig "bogus" (by decide) (by decide)
  refine ⟨hiff.mpr (List.ne_nil_of_mem h1), h1,
    hname 0 badSetting0 rfl (by decide), ?_, ?_⟩
  · exact hget 0 badSetting0 [badGetControl, badTypeControl] 0 badGetControl
      rfl rfl rfl rfl (by decide)
  · exact hty 0 badSetting0 [badGetControl, badTypeControl] 1 badTypeControl
      rfl rfl rfl (by decide)

/-! ## C7: exporter -/

/-- Every pair produced by the exporter's inner loop carries a truthy
value. -/
theorem exportEntry_truthy (scope : JSVal) (s : Setting) (sc : String) (v : JSVal)
    (h : (sc, v) ∈ exportEntry scope s) : truthy v = true := by
  rw [exportEntry] at h
  obtain ⟨a, _, ha⟩ := List.mem_filterMap.mp h
  by_cases hc : (truthy (s.val a) && (jsLooseEq scope (.str a) || !(truthy scope))) = true
  · rw [if_pos hc] at ha
    obtain ⟨rfl, rfl⟩ : a = sc ∧ s.val a = v := by
      constructor <;> injection ha.symm <;> simp_all
    exact (Bool.and_elim_left hc)
  · rw [if_neg hc] at ha
    cases ha

/-- Membership after a JS object assignment: a pair of `setKey l k v` is
either an original pair of `l` or the assigned pair. -/
theorem mem_setKey {α : Type} (l : List (String × α)) (k : String) (v : α)
    (p : String × α) (h : p ∈ setKey l k v) : p ∈ l ∨ p = (k, v) := by
  rw [setKey] at h
  by_cases ha : l.any (fun q => q.1 = k)
  · rw [if_pos (by simpa using ha)] at h
    obtain ⟨q, hq, hqe⟩ := List.mem_map.mp h
    by_cases hk : q.1 = k
    · right
      rw [if_pos hk] at hqe
      exact hqe.symm
    · left
      rw [if_neg hk] at hqe
      exact hqe ▸ hq
  · rw [if_neg (by simpa using ha)] at h
    rcases List.mem_append.mp h with h | h
    · exact Or.inl h
    · exact Or.inr (by simpa using h)

/-- Through the exporter's fold, every accumulated entry keeps the
all-values-truthy property. -/
theorem exportSettings_truthy_aux (scope : JSVal) (ss : List Setting)
    (acc : List (String × List (String × JSVal)))
    (hacc : ∀ p ∈ acc, ∀ x ∈ p.2, truthy x.2 = true) :
    ∀ p ∈ ss.foldl (fun out s => setKey out (jsToString s.name) (exportEntry scope s)) acc,
      ∀ x ∈ p.2, truthy x.2 = true := by
  induction ss generalizing acc with
  | nil => exact hacc
  | cons s rest ih =>
    intro p hp x hx
    refine ih (setKey acc (jsToString s.name) (exportEntry scope s)) ?_ p hp x hx
    intro q hq y hy
    rcases mem_setKey acc (jsToString s.name) (exportEntry scope s) q hq with h | h
    · exact hacc q h y hy
    · subst h
      exact exportEntry_truthy scope s y.1 y.2 (by simpa using hy)

/-- With a falsy scope argument the inner filter keeps exactly the
truthy values, the same as with no argument at all. -/
theorem exportEntry_falsy (scope : JSVal) (hf : truthy scope = false) (s : Setting) :
    exportEntry scope s = exportEntry JSVal.undef s := by
  rw [exportEntry, exportEntry]
  apply List.filterMap_congr
  intro sc _
  have h1 : truthy JSVal.undef = false := rfl
  have h2 : jsLooseEq JSVal.undef (.str sc) = false := rfl
  simp [hf, h1, h2]

/-- With a falsy scope argument every truthy scope/value pair of a
setting is exported. -/
theorem exportEntry_falsy_complete (scope : JSVal) (hf : truthy scope = false) (s : Setting)
    (sc : String) (hsc : sc ∈ scopes) (hv : truthy (s.val sc) = true) :
    (sc, s.val sc) ∈ exportEntry scope s := by
  rw [exportEntry]
  refine List.mem_filterMap.mpr ⟨sc, hsc, ?_⟩
  rw [if_pos (by simp [hf, hv])]

/-- The pairs the `"local"`-restricted inner loop keeps are kept by the
unrestricted one too. -/
theorem exportEntry_local_le (s : Setting) (x : String × JSVal)
    (h : x ∈ exportEntry (JSVal.str "local") s) : x ∈ exportEntry JSVal.undef s := by
  rw [exportEntry] at h ⊢
  obtain ⟨a, ha, hx⟩ := List.mem_filterMap.mp h
  refine List.mem_filterMap.mpr ⟨a, ha, ?_⟩
  by_cases hc : (truthy (s.val a)
      && (jsLooseEq (JSVal.str "local") (.str a) || !(truthy (JSVal.str "local")))) = true
  · rw [if_pos hc] at hx
    rw [if_pos (by simp [truthy, jsLooseEq]; simp [truthy] at hc; exact hc.1)]
    exact hx
  · rw [if_neg hc] at hx
    cases hx

/-- Overwriting the entries at a key keeps two related accumulators
related, when the two replacement values are themselves related. -/
theorem forall₂_map_overwrite (k : String) (v₁ v₂ : List (String × JSVal))
    (hv : ∀ x ∈ v₁, x ∈ v₂) (l₁ l₂ : List (String × List (String × JSVal)))
    (hrel : List.Forall₂ exportLe l₁ l₂) :
    List.Forall₂ exportLe (l₁.map (fun p => if p.1 = k then (k, v₁) else p))
      (l₂.map (fun p => if p.1 = k then (k, v₂) else p)) := by
  induction hrel with
  | nil => exact List.Forall₂.nil
  | cons hpq htail ih =>
    rename_i p q l₁' l₂'
    rw [List.map_cons, List.map_cons]
    refine List.Forall₂.cons ?_ ih
    show exportLe (if p.1 = k then (k, v₁) else p) (if q.1 = k then (k, v₂) else q)
    by_cases hk : p.1 = k
    · rw [if_pos hk, if_pos (hpq.1 ▸ hk)]
      exact ⟨rfl, hv⟩
    · rw [if_neg hk, if_neg (fun hq => hk (by rw [hpq.1]; exact hq))]
      exact hpq

/-- Two related accumulators stay related across a JS object
assignment with the same key and related values. -/
theorem setKey_forall₂ (l₁ l₂ : List (String × List (String × JSVal)))
    (hrel : List.Forall₂ exportLe l₁ l₂) (k : String)
    (v₁ v₂ : List (String × JSVal)) (hv : ∀ x ∈ v₁, x ∈ v₂) :
    List.Forall₂ exportLe (setKey l₁ k v₁) (setKey l₂ k v₂) := by
  have hany : l₁.any (fun p => p.1 = k) = l₂.any (fun p => p.1 = k) := by
    induction hrel with
    | nil => rfl
    | cons hpq _ ih => simp [List.any_cons, hpq.1, ih]
  rw [setKey, setKey, ← hany]
  by_cases ha : l₁.any (fun p => p.1 = k) = true
  · rw [if_pos (by simpa using ha), if_pos (by simpa using ha)]
    exact forall₂_map_overwrite k v₁ v₂ hv l₁ l₂ hrel
  · rw [if_neg (by simpa using ha), if_neg (by simpa using ha)]
    exact List.rel_append hrel (List.Forall₂.cons ⟨rfl, hv⟩ List.Forall₂.nil)

/-- Through the whole exporter fold, the restricted and unrestricted
outputs stay pointwise related. -/
theorem exportSettings_forall₂_aux (ss : List Setting)
    (acc₁ acc₂ : List (String × List (String × JSVal)))
    (hrel : List.Forall₂ exportLe acc₁ acc₂) :
    List.Forall₂ exportLe
      (ss.foldl (fun out s => setKey out (jsToString s.name)
        (exportEntry (JSVal.str "local") s)) acc₁)
      (ss.foldl (fun out s => setKey out (jsToString s.name)
        (exportEntry JSVal.undef s)) acc₂) := by
  induction ss generalizing acc₁ acc₂ with
  | nil => exact hrel
  | cons s rest ih =>
    exact ih _ _ (setKey_forall₂ acc₁ acc₂ hrel (jsToString s.name) _ _
      (exportEntry_local_le s))

/-- C7.  The exporter never emits a scope/value pair whose value is
falsy (hence never an undefined one); a falsy scope argument behaves
exactly like the no-argument call, exporting every truthy scope/value
pair of every setting; and the no-argument export dominates the
`"local"`-restricted one key-for-key, its entries carrying a superset of
the restricted pairs. -/
theorem C7_exportSettings_truthy_and_superset (st : SettingsState) (scope : JSVal) :
    (∀ nm entry, (nm, entry) ∈ exportSettings st scope →
       ∀ sc v, (sc, v) ∈ entry → truthy v = true)
    ∧ (truthy scope = false → exportSettings st scope = exportSettings st JSVal.undef)
    ∧ (truthy scope = false → ∀ s : Setting, ∀ sc ∈ scopes, truthy (s.val sc) = true →
         (sc, s.val sc) ∈ exportEntry scope s)
    ∧ List.Forall₂ exportLe
        (exportSettings st (JSVal.str "local")) (exportSettings st JSVal.undef) := by
  refine ⟨?_, ?_, ?_, ?_⟩
  · intro nm entry hmem sc v hx
    exact exportSettings_truthy_aux scope st.settings [] (by simp) (nm, entry) hmem (sc, v) hx
  · intro hf
    rw [exportSettings, exportSettings]
    have h : ∀ s : Setting, exportEntry scope s = exportEntry JSVal.undef s :=
      exportEntry_falsy scope hf
    simp only [h]
  · intro hf s sc hsc hv
    exact exportEntry_falsy_complete scope hf s sc hsc hv
  · rw [exportSettings, exportSettings]
    exact exportSettings_forall₂_aux st.settings [] [] List.Forall₂.nil

/-- Witness for C7 on the loaded registry: the exported `language`
value is truthy, the falsy argument `false` exports like the
no-argument call, and a truthy local pair of a sample setting is
exported. -/
theorem C7_witness :
    truthy (JSVal.str "en") = true
    ∧ exportSettings loadedState (JSVal.bool false) = exportSettings loadedState JSVal.undef
    ∧ ("local", JSVal.bool true) ∈ exportEntry (JSVal.bool false) oneLocalSetting := by
  obtain ⟨h1, h2, h3, _⟩ :=
    C7_exportSettings_truthy_and_superset loadedState (JSVal.bool false)
  refine ⟨?_, h2 (by decide), ?_⟩
  · exact h1 "language" [("local", JSVal.str "en")] (by decide) "local" (JSVal.str "en")
      (by decide)
  · have := h3 (by decide) oneLocalSetting "local" (by decide) (by decide)
    simpa [oneLocalSetting] using this

/-! ## C10: unknown setting names -/

/-- The resolver loop on a `null` setting raises a TypeError as soon as
it meets a scope that is not ignored. -/
theorem getValueScan_none_typeError (ign : List String) (l : List String)
    (h : ∃ sc ∈ l, sc ∉ ign) :
    getValueScan ign (none : Option Setting) l = .error JSErr.typeError := by
  induction l with
  | nil => simp at h
  | cons a rest ih =>
    by_cases hig : a ∈ ign
    · obtain ⟨sc, hsc, hni⟩ := h
      rcases List.mem_cons.mp hsc with rfl | hr
      · exact absurd hig hni
      · simp only [getValueScan]
        rw [if_pos (by simpa using hig)]
        exact ih ⟨sc, hr, hni⟩
    · simp [getValueScan, hig]

/-- C10.  For a name with no registered setting, `getSetting` returns
`null` (it cannot fail); consequently `getValue` — as soon as some scope
is not ignored — and `setValue` with a recognised scope both fail with a
TypeError from dereferencing that `null`, rather than returning `null`
or signalling a dedicated unknown-setting error, and `setValue` mutates
nothing. -/
theorem C10_unknown_setting_typeError (st : SettingsState) (name : JSVal)
    (h : ∀ s ∈ st.settings, jsLooseEq s.name name = false) :
    getSetting st.settings name = none
    ∧ ((∃ sc ∈ scopes, sc ∉ st.ignoredScopes) →
        getValueExc st name = .error JSErr.typeError)
    ∧ (∀ scope : String, ∀ v : JSVal, scope ∈ scopes →
        setValueRun st name scope v = (st, some JSErr.typeError)) := by
  have hnone : getSetting st.settings name = none := by
    rw [getSetting, List.find?_eq_none]
    intro s hs
    simp [h s hs]
  refine ⟨hnone, fun hex => ?_, fun scope v hsc => ?_⟩
  · rw [getValueExc, hnone]
    exact getValueScan_none_typeError st.ignoredScopes scopes hex
  · simp [setValueRun, hsc, hnone]

/-- Witness for C10: the name `"nosuch"` is unregistered; `getSetting`
yields `null`, and both lookups raise TypeErrors on the pristine
state. -/
theorem C10_witness :
    getSetting (realInitState qNone).settings (JSVal.str "nosuch") = none
    ∧ getValueExc (realInitState qNone) (JSVal.str "nosuch") = .error JSErr.typeError
    ∧ setValueRun (realInitState qNone) (JSVal.str "nosuch") "local" JSVal.null
        = (realInitState qNone, some JSErr.typeError) := by
  obtain ⟨h1, h2, h3⟩ :=
    C10_unknown_setting_typeError (realInitState qNone) (JSVal.str "nosuch") (by decide)
  exact ⟨h1, h2 ⟨"local", by decide, by decide⟩, h3 "local" JSVal.null (by decide)⟩

/-! ## C8: resolution after loading -/

/-- Counterexample to C8 as stated: with `userName=Bob` in the
URL, the load succeeds, no scope is ignored, the `name` setting holds
the non-null seeded value `"Bob"` in its `"get"` scope, and yet
`getValue("name")` is `null`, because the `"local"` scope holds a
defined `null` (the default) and is scanned first. -/
theorem C8_counterexample :
    (loadSettingsRun qUserBob (realInitState qUserBob)).2 = none
    ∧ (loadSettingsRun qUserBob (realInitState qUserBob)).1.ignoredScopes = []
    ∧ ((getSetting (loadSettingsRun qUserBob (realInitState qUserBob)).1.settings
        (JSVal.str "name")).map (fun s => s.val "get")) = some (JSVal.str "Bob")
    ∧ JSVal.str "Bob" ≠ JSVal.null
    ∧ getValueExc (loadSettingsRun qUserBob (realInitState qUserBob)).1 (JSVal.str "name")
        = .ok JSVal.null :=
  ⟨rfl, rfl, rfl, by decide, rfl⟩

/-- C8 (amended).  After a successful `loadSettings`, `getValue(name)`
returns the value held by the first non-ignored scope with a defined
entry (`null` when no scope qualifies); it is `null` exactly when that
first defined value is itself `null` or no scope qualifies — so a
non-null value seeded in a later scope does not make the result non-null
when an earlier non-ignored scope holds a defined `null`. -/
theorem C8_resolution_after_load (q : String → Option String) (st st1 : SettingsState)
    (_hload : loadSettingsRun q st = (st1, none)) (name : JSVal) (s : Setting)
    (hreg : getSetting st1.settings name = some s) :
    getValueExc st1 name = .ok
      (match scopes.find? (scopeQualifies st1.ignoredScopes s) with
       | some sc => s.val sc
       | none => JSVal.null)
    ∧ (getValueExc st1 name = .ok JSVal.null ↔
        ∀ sc, scopes.find? (scopeQualifies st1.ignoredScopes s) = some sc →
          s.val sc = JSVal.null) := by
  have h1 : getValueExc st1 name = .ok
      (match scopes.find? (scopeQualifies st1.ignoredScopes s) with
       | some sc => s.val sc
       | none => JSVal.null) := by
    rw [getValueExc, hreg, getValueScan_eq_find]
  refine ⟨h1, ?_⟩
  rw [h1]
  cases hf : scopes.find? (scopeQualifies st1.ignoredScopes s) with
  | none => simp
  | some sc =>
    constructor
    · intro hv sc2 hsc2
      injection hsc2 with hsc2
      subst hsc2
      simpa using hv
    · intro hall
      simp [hall sc rfl]

/-- Witness for C8 on the `userName=Bob` load: the resolver returns
`null` for `name`, matching the first-defined-scope characterisation. -/
theorem C8_witness :
    getValueExc (loadSettingsRun qUserBob (realInitState qUserBob)).1 (JSVal.str "name")
      = .ok JSVal.null := by
  have h := C8_resolution_after_load qUserBob (realInitState qUserBob)
    (loadSettingsRun qUserBob (realInitState qUserBob)).1 rfl (JSVal.str "name") _ rfl
  exact h.1.trans rfl

/-! ## C9: the local scope is always seeded -/

/-- A truthy value is not `undefined`. -/
theorem truthy_ne_undef (v : JSVal) (h : truthy v = true) : v ≠ JSVal.undef := by
  intro hv
  subst hv
  cases h

/-- `loadPres` is reflexive. -/
theorem loadPres_refl (st : SettingsState) : loadPres st st := by
  refine ⟨rfl, fun i => ?_, fun i s s1 h1 h2 h3 => ?_⟩
  · cases hg : st.settings.get? i with
    | none => exact Or.inl ⟨rfl, rfl⟩
    | some s => exact Or.inr ⟨s, s, rfl, rfl, rfl, rfl, rfl⟩
  · rw [h1] at h2
    injection h2 with h2
    exact h2 ▸ h3

/-- `loadPres` composes. -/
theorem loadPres_trans (st1 st2 st3 : SettingsState) (h12 : loadPres st1 st2)
    (h23 : loadPres st2 st3) : loadPres st1 st3 := by
  obtain ⟨hi12, hs12, hl12⟩ := h12
  obtain ⟨hi23, hs23, hl23⟩ := h23
  refine ⟨hi23.trans hi12, fun i => ?_, fun i s s1 h1 h2 h3 => ?_⟩
  · rcases hs12 i with ⟨ha, hb⟩ | ⟨s, sm, ha, hb, hab⟩
    · rcases hs23 i with ⟨hc, hd⟩ | ⟨x, y, hc, hd, _⟩
      · exact Or.inl ⟨ha, hd⟩
      · rw [hb] at hc; cases hc
    · rcases hs23 i with ⟨hc, hd⟩ | ⟨x, y, hc, hd, hxy⟩
      · rw [hb] at hc; cases hc
      · rw [hb] at hc
        injection hc with hc
        subst hc
        exact Or.inr ⟨s, y, ha, hd, hab.1.trans hxy.1, hab.2.1.trans hxy.2.1,
          hab.2.2.trans hxy.2.2⟩
  · rcases hs12 i with ⟨ha, hb⟩ | ⟨x, y, ha, hb, _⟩
    · rw [h1] at ha; cases ha
    · rw [h1] at ha
      injection ha with ha
      subst ha
      exact hl23 i y s1 hb h2 (hl12 i s y h1 hb h3)

/-- Positional effect of `setValFirst`: each position is unchanged or
holds the value-updated copy of the original. -/
theorem setValFirst_get? (name : JSVal) (sc : String) (v : JSVal) (ss : List Setting)
    (i : Nat) :
    (setValFirst name sc v ss).get? i = ss.get? i
    ∨ ∃ s, ss.get? i = some s
        ∧ (setValFirst name sc v ss).get? i = some { s with val := updateVal s.val sc v } := by
  induction ss generalizing i with
  | nil => exact Or.inl rfl
  | cons a rest ih =>
    rw [setValFirst]
    by_cases ha : jsLooseEq a.name name = true
    · rw [if_pos ha]
      cases i with
      | zero => exact Or.inr ⟨a, rfl, rfl⟩
      | succ n => exact Or.inl rfl
    · rw [if_neg ha]
      cases i with
      | zero => exact Or.inl rfl
      | succ n => exact ih n

/-- `setValue`'s mutation keeps the registry shape. -/
theorem shapedFrom_setValFirst (name : JSVal) (sc : String) (v : JSVal) (ss : List Setting) :
    shapedFrom ss (setValFirst name sc v ss) := by
  intro i
  rcases setValFirst_get? name sc v ss i with h | ⟨s, hs, hm⟩
  · cases hg : ss.get? i with
    | none => exact Or.inl ⟨rfl, h.trans hg⟩
    | some s => exact Or.inr ⟨s, s, rfl, h.trans hg, rfl, rfl, rfl⟩
  · exact Or.inr ⟨s, _, hs, hm, rfl, rfl, rfl⟩

/-- Writing a defined value through `setValue` keeps `"local"` entries
defined. -/
theorem localKeeps_setValFirst (name : JSVal) (sc : String) (v : JSVal)
    (hv : v ≠ JSVal.undef) (ss : List Setting) :
    localKeeps ss (setValFirst name sc v ss) := by
  intro i s s1 h1 h2 h3
  rcases setValFirst_get? name sc v ss i with h | ⟨s2, hs2, hm⟩
  · rw [h, h1] at h2
    injection h2 with h2
    exact h2 ▸ h3
  · have hs : s2 = s := Option.some.inj (hs2.symm.trans h1)
    subst hs
    have h4 : s1 = { s2 with val := updateVal s2.val sc v } :=
      (Option.some.inj (hm.symm.trans h2)).symm
    rw [h4]
    show updateVal s2.val sc v "local" ≠ JSVal.undef
    rw [updateVal]
    split_ifs
    · exact hv
    · exact h3

/-- One `setValue` call, with a defined value, preserves the loader
invariants (whether it succeeds or throws). -/
theorem setValueRun_pres (st : SettingsState) (name : JSVal) (sc : String) (v : JSVal)
    (hv : v ≠ JSVal.undef) : loadPres st (setValueRun st name sc v).1 := by
  rw [setValueRun]
  cases hc : scopes.contains sc with
  | false => exact loadPres_refl st
  | true =>
    cases hg : getSetting st.settings name with
    | none => exact loadPres_refl st
    | some s =>
      exact ⟨rfl, shapedFrom_setValFirst name sc v st.settings,
        localKeeps_setValFirst name sc v hv st.settings⟩

/-- The commit loop preserves the loader invariants: every value it
routes through `setValue` passed the definedness guard. -/
theorem commitScopes_pres (s : Setting) (scl : List String) (st : SettingsState) :
    loadPres st (commitScopes s scl st).1 := by
  induction scl generalizing st with
  | nil => exact loadPres_refl st
  | cons sc rest ih =>
    rw [commitScopes]
    by_cases hv : (s.val sc == JSVal.undef) = true
    · rw [if_pos hv]
      exact ih st
    · rw [if_neg hv]
      have hvne : s.val sc ≠ JSVal.undef := by simpa using hv
      rcases hrun : setValueRun st s.name sc (s.val sc) with ⟨st2, e2⟩
      have hp : loadPres st st2 := by
        have := setValueRun_pres st s.name sc (s.val sc) hvne
        rw [hrun] at this
        exact this
      cases e2 with
      | none => exact loadPres_trans _ _ _ hp (ih st2)
      | some e => exact hp

/-- Through the control loop of the seeding phase, a defined `"local"`
entry of the value map under construction stays defined, provided no
custom binding writes to the `"local"` key. -/
theorem seedControls_localdef (q : String → Option String) (cs : List Control)
    (hc : ∀ c ∈ cs, c.type = JSVal.str "custom" → jsToString c.scope ≠ "local")
    (val : String → JSVal) (hv : val "local" ≠ JSVal.undef) (v : String → JSVal)
    (h : seedControls q cs val = .ok v) : v "local" ≠ JSVal.undef := by
  induction cs generalizing val with
  | nil =>
    rw [seedControls] at h
    injection h with h
    exact h ▸ hv
  | cons c rest ih =>
    rw [seedControls] at h
    by_cases hty : c.type = JSVal.str "get"
    · rw [if_pos hty] at h
      refine ih (fun c2 hc2 => hc c2 (List.mem_cons_of_mem c hc2)) _ ?_ h
      rw [applyGetControl]
      by_cases htr : truthy (coerceParam (lookupQ q (jsToString c.name))) = true
      · rw [if_pos htr, updateVal]
        split_ifs
        · exact truthy_ne_undef _ htr
        · exact hv
      · rw [if_neg htr]
        exact hv
    · rw [if_neg hty] at h
      by_cases hcu : c.type = JSVal.str "custom"
      · rw [if_pos hcu] at h
        cases hcb : c.callback with
        | fn f =>
          rw [hcb] at h
          refine ih (fun c2 hc2 => hc c2 (List.mem_cons_of_mem c hc2)) _ ?_ h
          rw [updateVal]
          rw [if_neg (Ne.symm (hc c (List.mem_cons_self c rest) hcu))]
          exact hv
        | missing => rw [hcb] at h; cases h
        | notFn w => rw [hcb] at h; cases h
      · rw [if_neg hcu] at h
        exact ih (fun c2 hc2 => hc c2 (List.mem_cons_of_mem c hc2)) _ hv h

/-- A successful seeding keeps the setting's shape and leaves its
`"local"` entry defined. -/
theorem seedSetting_ok (q : String → Option String) (s s1 : Setting)
    (h : seedSetting q s = .ok s1) (hd : s.defaultValue ≠ JSVal.undef)
    (hc : ∀ c ∈ s.controls.getD [], c.type = JSVal.str "custom" →
      jsToString c.scope ≠ "local") :
    sameShape s s1 ∧ s1.val "local" ≠ JSVal.undef := by
  rw [seedSetting] at h
  cases hcs : s.controls with
  | none => rw [hcs] at h; cases h
  | some cs =>
    rw [hcs] at h
    dsimp only at h
    cases hsc : seedControls q cs (updateVal (fun _ => JSVal.undef) "local" s.defaultValue) with
    | error e =>
      rw [hsc] at h
      simp [Except.map] at h
    | ok v =>
      rw [hsc] at h
      simp only [Except.map] at h
      injection h with h
      have hbase : updateVal (fun _ => JSVal.undef) "local" s.defaultValue "local"
          ≠ JSVal.undef := by
        rw [updateVal]
        simpa using hd
      have hlocal : v "local" ≠ JSVal.undef := by
        refine seedControls_localdef q cs ?_ _ hbase v hsc
        intro c hmem hty
        exact hc c (by rw [hcs]; simpa using hmem) hty
      rw [← h]
      exact ⟨⟨rfl, rfl, hcs⟩, hlocal⟩

/-- The main loop of the loader preserves the loader invariants and
leaves every processed index with a defined `"local"` entry. -/
theorem loadEach_localdef (q : String → Option String) (l : List Nat)
    (st st1 : SettingsState)
    (hdef : ∀ i s, st.settings.get? i = some s → s.defaultValue ≠ JSVal.undef)
    (hcust : ∀ i s, st.settings.get? i = some s →
      ∀ c ∈ s.controls.getD [], c.type = JSVal.str "custom" → jsToString c.scope ≠ "local")
    (h : loadEach q l st = (st1, none)) :
    loadPres st st1
    ∧ ∀ i ∈ l, ∀ s1, st1.settings.get? i = some s1 → s1.val "local" ≠ JSVal.undef := by
  induction l generalizing st with
  | nil =>
    rw [loadEach] at h
    injection h with h1 h2
    subst h1
    exact ⟨loadPres_refl st, by simp⟩
  | cons i rest ih =>
    rw [loadEach] at h
    cases hgi : st.settings.get? i with
    | none =>
      rw [hgi] at h
      dsimp only at h
      obtain ⟨pres, hrest⟩ := ih st hdef hcust h
      refine ⟨pres, ?_⟩
      intro i2 hi2 s1 hs1
      rcases List.mem_cons.mp hi2 with rfl | hi2r
      · rcases pres.2.1 i2 with ⟨ha, hb⟩ | ⟨x, y, hx, hy, _⟩
        · rw [hb] at hs1
          cases hs1
        · rw [hgi] at hx
          cases hx
      · exact hrest i2 hi2r s1 hs1
    | some s =>
      rw [hgi] at h
      dsimp only at h
      cases hseed : seedSetting q s with
      | error e =>
        rw [hseed] at h
        simp at h
      | ok s2 =>
        rw [hseed] at h
        dsimp only at h
        obtain ⟨hshape, hlocal2⟩ := seedSetting_ok q s s2 hseed (hdef i s hgi) (hcust i s hgi)
        have hilen : i < st.settings.length := (List.get?_eq_some.mp hgi).choose
        have hset_get : ∀ j : Nat, ((st.settings.set i s2).get? j)
            = if j = i then some s2 else st.settings.get? j := by
          intro j
          by_cases hj : j = i
          · subst hj
            simp [List.get?_eq_getElem?, List.getElem?_set_self, hilen]
          · simp [List.get?_eq_getElem?, List.getElem?_set_ne (Ne.symm hj), hj]
        have pres12 : loadPres st { st with settings := st.settings.set i s2 } := by
          refine ⟨rfl, fun j => ?_, fun j a b hja hjb hd2 => ?_⟩
          · show (st.settings.get? j = none ∧ (st.settings.set i s2).get? j = none)
              ∨ ∃ x y, st.settings.get? j = some x ∧ (st.settings.set i s2).get? j = some y
                ∧ sameShape x y
            by_cases hj : j = i
            · subst hj
              refine Or.inr ⟨s, s2, hgi, ?_, hshape⟩
              rw [hset_get]
              simp
            · cases hgj : st.settings.get? j with
              | none =>
                refine Or.inl ⟨rfl, ?_⟩
                rw [hset_get, if_neg hj, hgj]
              | some a =>
                refine Or.inr ⟨a, a, rfl, ?_, rfl, rfl, rfl⟩
                rw [hset_get, if_neg hj, hgj]
          · replace hjb : (st.settings.set i s2).get? j = some b := hjb
            by_cases hj : j = i
            · subst hj
              rw [hset_get, if_pos rfl] at hjb
              have : s2 = b := Option.some.inj hjb
              exact this ▸ hlocal2
            · rw [hset_get, if_neg hj] at hjb
              rw [hja] at hjb
              injection hjb with hjb
              exact hjb ▸ hd2
        rcases hcommit : commitScopes s2 scopes { st with settings := st.settings.set i s2 }
          with ⟨st3, e3⟩
        rw [hcommit] at h
        cases e3 with
        | some e => simp at h
        | none =>
          have pres23 : loadPres { st with settings := st.settings.set i s2 } st3 := by
            have hp := commitScopes_pres s2 scopes { st with settings := st.settings.set i s2 }
            rw [hcommit] at hp
            exact hp
          have pres13 := loadPres_trans _ _ _ pres12 pres23
          have hdef3 : ∀ i2 s3, st3.settings.get? i2 = some s3 →
              s3.defaultValue ≠ JSVal.undef := by
            intro i2 s3 hg3
            rcases pres13.2.1 i2 with ⟨ha, hb⟩ | ⟨x, y, hx, hy, hxy⟩
            · rw [hb] at hg3
              cases hg3
            · rw [hy] at hg3
              injection hg3 with hg3
              subst hg3
              exact hxy.2.1 ▸ hdef i2 x hx
          have hcust3 : ∀ i2 s3, st3.settings.get? i2 = some s3 →
              ∀ c ∈ s3.controls.getD [], c.type = JSVal.str "custom" →
                jsToString c.scope ≠ "local" := by
            intro i2 s3 hg3
            rcases pres13.2.1 i2 with ⟨ha, hb⟩ | ⟨x, y, hx, hy, hxy⟩
            · rw [hb] at hg3
              cases hg3
            · rw [hy] at hg3
              injection hg3 with hg3
              subst hg3
              exact hxy.2.2 ▸ hcust i2 x hx
          obtain ⟨pres3, hrest⟩ := ih st3 hdef3 hcust3 h
          refine ⟨loadPres_trans _ _ _ pres13 pres3, ?_⟩
          intro i2 hi2 s1 hs1
          rcases List.mem_cons.mp hi2 with heq | hi2r
          · subst heq
            have hg2 : ({ st with settings := st.settings.set i2 s2 } :
                SettingsState).settings.get? i2 = some s2 := by
              show (st.settings.set i2 s2).get? i2 = some s2
              rw [hset_get]
              simp
            rcases pres23.2.1 i2 with ⟨ha, hb⟩ | ⟨x, y, hx, hy, _⟩
            · rw [hg2] at ha
              cases ha
            · have hx2 : x = s2 := Option.some.inj (hx.symm.trans hg2)
              subst hx2
              have hydef : y.val "local" ≠ JSVal.undef :=
                pres23.2.2 i2 x y hg2 hy hlocal2
              exact pres3.2.2 i2 y s1 hy hs1 hydef
          · exact hrest i2 hi2r s1 hs1

/-- With local unignored and a defined local entry, the resolver stops
at the `"local"` scope. -/
theorem getValueScan_local (ign : List String) (s : Setting)
    (h1 : "local" ∉ ign) (h2 : s.val "local" ≠ JSVal.undef) :
    getValueScan ign (some s) scopes = .ok (s.val "local") := by
  simp [scopes, getValueScan, h1, h2]

/-- C9.  After a successful `loadSettings` — on a registry whose
defaults are all defined and whose custom bindings never target the
`"local"` key, which the shipped registry satisfies — every setting's
value map has a defined `"local"` entry (a `null` or `false` default
counts as defined), so while `"local"` is not ignored, `getValue`
returns the `"local"` entry for every registered name: values recorded
under `"global"` or `"get"` can never become the effective value. -/
theorem C9_local_scope_masks_others (q : String → Option String) (st st1 : SettingsState)
    (hdef : ∀ s ∈ st.settings, s.defaultValue ≠ JSVal.undef)
    (hcust : ∀ s ∈ st.settings, ∀ c ∈ s.controls.getD [],
      c.type = JSVal.str "custom" → jsToString c.scope ≠ "local")
    (hload : loadSettingsRun q st = (st1, none)) :
    ∀ name s, getSetting st1.settings name = some s →
      s.val "local" ≠ JSVal.undef
      ∧ ("local" ∉ st1.ignoredScopes → getValueExc st1 name = .ok (s.val "local")) := by
  rw [loadSettingsRun] at hload
  by_cases hthrow : jsListNeZero (checkSettingsArray st.ignoredScopes st.settings) = true
  · rw [if_pos hthrow] at hload
    simp at hload
  · rw [if_neg hthrow] at hload
    rcases hle : loadEach q (List.range st.settings.length) st with ⟨st2, e2⟩
    rw [hle] at hload
    cases e2 with
    | some e => simp at hload
    | none =>
      injection hload with h1 h2
      obtain ⟨pres, hloc⟩ := loadEach_localdef q (List.range st.settings.length) st st2
        (fun _ s hg => hdef s (List.get?_mem hg))
        (fun _ s hg => hcust s (List.get?_mem hg)) hle
      subst h1
      intro name s hreg
      have hreg2 : getSetting st2.settings name = some s := hreg
      have hmem : s ∈ st2.settings := by
        rw [getSetting] at hreg2
        exact List.mem_of_find?_eq_some hreg2
      obtain ⟨i, hgi⟩ := List.get?_of_mem hmem
      rcases pres.2.1 i with ⟨ha, hb⟩ | ⟨x, y, hx, hy, _⟩
      · rw [hb] at hgi
        cases hgi
      · have hiRange : i ∈ List.range st.settings.length :=
          List.mem_range.mpr (List.get?_eq_some.mp hx).choose
        have hdefined := hloc i hiRange s hgi
        refine ⟨hdefined, fun hni => ?_⟩
        rw [getValueExc, hreg]
        exact getValueScan_local _ s hni hdefined

/-- Witness for C9 on the shipped registry with an empty URL: the
`language` setting resolves to its seeded `"local"` default `"en"`. -/
theorem C9_witness :
    getValueExc loadedState (JSVal.str "language") = .ok (JSVal.str "en") := by
  have h := C9_local_scope_masks_others qNone (realInitState qNone) loadedState
    (by decide) (by decide) rfl (JSVal.str "language") _ rfl
  exact (h.2 (by decide)).trans rfl

end Settings
